import Mathlib

/-!
Verification of the aionotify repository.

Part 1 embeds `src/aionotify/aioutils.py` (`UnixFileDescriptorTransport`
and `stream_from_fd`) as an explicit state machine: the asyncio event loop
is modelled by a FIFO queue of `call_soon` tasks plus a reader-registration
flag for the single file descriptor, and every method of the transport is
translated statement by statement, including the points where the Python
code would raise (touching `self._loop`, `self._protocol` or
`self._fileno` after they have been set to `None`, reading from a closed
descriptor, ...): such a raise is recorded in the `crashes` counter and the
statements after the raising one are not executed, exactly as in Python.

Part 2 models the Watcher / WatchRegistry / RecordDecoder layer. That code
is not part of the provided sources (only its tests are), so those
definitions are modelled from the spec and marked as such.
-/

namespace Aionotify

/-- Shallow embedding of a Python OSError: only the errno matters here. -/
structure OSErr where
  errno : Nat
deriving DecidableEq, Repr

/-- Numeric value of errno.EIO on Linux, as used by `_fatal_error`. -/
def errnoEio : Nat := 5

/-- The callbacks that `UnixFileDescriptorTransport` submits to the event
loop with `loop.call_soon`. `connectionMade` and `eofReceived` stand for
the bound protocol methods captured at scheduling time; `resumeReading`
and `callConnectionLost` are transport methods whose fields are read at
execution time. -/
inductive FDTask
  | connectionMade
  | resumeReading
  | notifyWaiter
  | eofReceived
  | callConnectionLost (error : Option OSErr)
deriving DecidableEq, Repr

/-- Combined state of one `UnixFileDescriptorTransport`, of the event loop
it is registered with, and of the observation counters used to state the
theorems. `fileno = none`, `hasProtocol = false`, `hasLoop = false` model
the corresponding Python attributes being `None` (as set by
`_call_connection_lost`). `queue` is the loop's `call_soon` FIFO and
`readerRegistered` says whether the descriptor is currently in the loop's
reader set. `crashes` counts exceptions raised out of transport code. -/
structure FDState where
  fileno : Option Nat
  hasProtocol : Bool
  hasLoop : Bool
  active : Bool
  closing : Bool
  readerRegistered : Bool
  queue : List FDTask
  waiterCancelled : Bool
  waiterResolved : Bool
  connectionMadeCalls : Nat
  dataReceived : List (List Nat)
  eofReceivedCalls : Nat
  connectionLostCalls : List (Option OSErr)
  osCloseCalls : Nat
  excHandlerCalls : Nat
  crashes : Nat
  everResumed : Bool
deriving DecidableEq, Repr

/-- Model of `self._loop.call_soon(t)`: appends to the loop's FIFO; raises
(`AttributeError`) when the loop attribute has been set to `None`. The
boolean reports success so callers can stop after a raise. -/
def callSoonOp (t : FDTask) (s : FDState) : FDState × Bool :=
  if s.hasLoop then ({ s with queue := s.queue ++ [t] }, true)
  else ({ s with crashes := s.crashes + 1 }, false)

/-- Model of `pause_reading` (aioutils.py lines 63-66): `remove_reader`
then `self._active = False`. Raises before setting `_active` when the loop
is `None` or when the fd is `None` (asyncio rejects a `None` fd). -/
def pauseReadingOp (s : FDState) : FDState × Bool :=
  if s.hasLoop then
    match s.fileno with
    | some _ => ({ s with readerRegistered := false, active := false }, true)
    | none => ({ s with crashes := s.crashes + 1 }, false)
  else ({ s with crashes := s.crashes + 1 }, false)

/-- Model of `resume_reading` (aioutils.py lines 68-71): `add_reader` then
`self._active = True`. `everResumed` records that a resume succeeded, for
the temporal claims. -/
def resumeReadingOp (s : FDState) : FDState × Bool :=
  if s.hasLoop then
    match s.fileno with
    | some _ =>
        ({ s with readerRegistered := true, active := true, everResumed := true }, true)
    | none => ({ s with crashes := s.crashes + 1 }, false)
  else ({ s with crashes := s.crashes + 1 }, false)

/-- Public `pause_reading`. -/
def pause_reading (s : FDState) : FDState := (pauseReadingOp s).1

/-- Public `resume_reading`. -/
def resume_reading (s : FDState) : FDState := (resumeReadingOp s).1

/-- Model of `_close` (aioutils.py lines 91-95): set `_closing`, pause
reading, then `call_soon(self._call_connection_lost, error)`; a raise in
the middle keeps the earlier mutations and skips the rest, as in Python. -/
def closeAux (error : Option OSErr) (s : FDState) : FDState :=
  let s := { s with closing := true }
  let p := pauseReadingOp s
  if p.2 then (callSoonOp (FDTask.callConnectionLost error) p.1).1 else p.1

/-- Model of the public `close` (aioutils.py lines 73-76). -/
def close (s : FDState) : FDState :=
  if s.closing then s else closeAux none s

/-- Model of `_fatal_error` (aioutils.py lines 78-89): both branches touch
`self._loop` first (either `get_debug` or `call_exception_handler`), so
with a dead loop the method raises before `_close`; with a live loop an
errno other than EIO goes through the loop's exception handler, then both
branches call `_close(error=exc)`. -/
def fatalError (exc : OSErr) (s : FDState) : FDState :=
  if s.hasLoop then
    let s :=
      if exc.errno = errnoEio then s
      else { s with excHandlerCalls := s.excHandlerCalls + 1 }
    closeAux (some exc) s
  else { s with crashes := s.crashes + 1 }

/-- Outcome of the `os.read` call inside `_read_ready`: some bytes (empty
means end-of-file), an `InterruptedError`, or another `OSError`. -/
inductive ReadResult
  | ok (bytes : List Nat)
  | interrupted
  | osError (exc : OSErr)
deriving DecidableEq, Repr

/-- Model of `_read_ready` (aioutils.py lines 40-61). Reading from a
`None` fileno raises. An `InterruptedError` is swallowed. Another
`OSError` goes to `_fatal_error`. Non-empty data goes to
`protocol.data_received`. Empty data is kernel EOF: the code touches
`self._loop.get_debug()`, sets `self._closing = False` (sic, the source
really assigns `False` here), pauses reading, and schedules
`protocol.eof_received` and `_call_connection_lost(None)`. -/
def read_ready (r : ReadResult) (s : FDState) : FDState :=
  match s.fileno with
  | none => { s with crashes := s.crashes + 1 }
  | some _ =>
    match r with
    | ReadResult.interrupted => s
    | ReadResult.osError exc => fatalError exc s
    | ReadResult.ok bytes =>
      if bytes ≠ [] then
        if s.hasProtocol then { s with dataReceived := s.dataReceived ++ [bytes] }
        else { s with crashes := s.crashes + 1 }
      else
        if s.hasLoop then
          let s := { s with closing := false }
          let p := pauseReadingOp s
          if p.2 then
            if p.1.hasProtocol then
              let q := callSoonOp FDTask.eofReceived p.1
              if q.2 then (callSoonOp (FDTask.callConnectionLost none) q.1).1 else q.1
            else { p.1 with crashes := p.1.crashes + 1 }
          else p.1
        else { s with crashes := s.crashes + 1 }

/-- Model of `_notify_waiter` (aioutils.py lines 34-38). -/
def notifyWaiterOp (s : FDState) : FDState :=
  if s.waiterCancelled then s else { s with waiterResolved := true }

/-- Model of `_call_connection_lost` (aioutils.py lines 97-105):
`try: protocol.connection_lost(error)` - with a `None` protocol the
attribute lookup raises and no invocation happens; `finally:` always runs
`os.close(self._fileno)` - with a `None` fileno it raises and the
assignments after it do not run, so nothing is nulled; on success the fd
is closed and all three attributes are set to `None`. `protoRaises` says
whether the protocol's own `connection_lost` raises; the `finally` block
runs either way. -/
def callConnectionLost (error : Option OSErr) (protoRaises : Bool) (s : FDState) : FDState :=
  let s1 :=
    if s.hasProtocol then
      { s with connectionLostCalls := s.connectionLostCalls ++ [error],
               crashes := if protoRaises then s.crashes + 1 else s.crashes }
    else { s with crashes := s.crashes + 1 }
  match s1.fileno with
  | some _ =>
      { s1 with osCloseCalls := s1.osCloseCalls + 1, fileno := none,
                hasProtocol := false, hasLoop := false }
  | none => { s1 with crashes := s1.crashes + 1 }

/-- Executes the task at the front of the loop's FIFO, as the event loop
does once per scheduler turn. -/
def execTask (protoRaises : Bool) (s : FDState) : FDState :=
  match s.queue with
  | [] => s
  | t :: rest =>
    let s := { s with queue := rest }
    match t with
    | FDTask.connectionMade => { s with connectionMadeCalls := s.connectionMadeCalls + 1 }
    | FDTask.resumeReading => resume_reading s
    | FDTask.notifyWaiter => notifyWaiterOp s
    | FDTask.eofReceived => { s with eofReceivedCalls := s.eofReceivedCalls + 1 }
    | FDTask.callConnectionLost e => callConnectionLost e protoRaises s

/-- The actions an execution of the transport is a sequence of: the public
API calls, cancellation of the waiter, a readiness callback (delivered by
the loop only while the descriptor is registered), and one scheduler turn
executing the front `call_soon` task (whose protocol callback may raise). -/
inductive Act
  | close
  | pause
  | resume
  | cancelWaiter
  | readReady (r : ReadResult)
  | runTask (protoRaises : Bool)
deriving DecidableEq, Repr

/-- Small-step semantics for one action. -/
def step (a : Act) (s : FDState) : FDState :=
  match a with
  | Act.close => close s
  | Act.pause => pause_reading s
  | Act.resume => resume_reading s
  | Act.cancelWaiter => if s.waiterResolved then s else { s with waiterCancelled := true }
  | Act.readReady r => if s.readerRegistered then read_ready r s else s
  | Act.runTask pr => execTask pr s

/-- Runs a list of actions from a state. -/
def run : List Act → FDState → FDState
  | [], s => s
  | a :: rest, s => run rest (step a s)

/-- Model of `UnixFileDescriptorTransport.__init__` (aioutils.py lines
19-32): stores the fields, then submits `protocol.connection_made`,
`resume_reading` and `_notify_waiter` to the loop with `call_soon`, in
that order, invoking none of them synchronously. -/
def initState (fd : Nat) : FDState :=
  { fileno := some fd, hasProtocol := true, hasLoop := true,
    active := false, closing := false, readerRegistered := false,
    queue := [FDTask.connectionMade, FDTask.resumeReading, FDTask.notifyWaiter],
    waiterCancelled := false, waiterResolved := false,
    connectionMadeCalls := 0, dataReceived := [], eofReceivedCalls := 0,
    connectionLostCalls := [], osCloseCalls := 0, excHandlerCalls := 0,
    crashes := 0, everResumed := false }

/-- Lifecycle invariant of the transport: either the three attributes
(`_protocol`, `_loop`, `_fileno`) are still live and no finalization has
happened, or `_call_connection_lost` ran to completion exactly once: the
protocol's `connection_lost` was invoked exactly once, `os.close` closed
the descriptor exactly once, and all three attributes are `None`. -/
def LiveOrFinalized (s : FDState) : Prop :=
  (s.hasProtocol = true ∧ s.hasLoop = true ∧ s.fileno.isSome = true ∧
    s.connectionLostCalls = [] ∧ s.osCloseCalls = 0)
  ∨ (s.hasProtocol = false ∧ s.hasLoop = false ∧ s.fileno = none ∧
    s.connectionLostCalls.length = 1 ∧ s.osCloseCalls = 1)

theorem pauseReadingOp_liveOrFinalized (s : FDState) (h : LiveOrFinalized s) :
    LiveOrFinalized (pauseReadingOp s).1 := by
  rcases h with ⟨h1, h2, h3, h4, h5⟩ | ⟨h1, h2, h3, h4, h5⟩
  · rcases hf : s.fileno with _ | fd
    · rw [hf] at h3; simp at h3
    · left; simp [pauseReadingOp, h1, h2, hf, h3, h4, h5]
  · right; simp [pauseReadingOp, h1, h2, h3, h4, h5]

theorem resumeReadingOp_liveOrFinalized (s : FDState) (h : LiveOrFinalized s) :
    LiveOrFinalized (resumeReadingOp s).1 := by
  rcases h with ⟨h1, h2, h3, h4, h5⟩ | ⟨h1, h2, h3, h4, h5⟩
  · rcases hf : s.fileno with _ | fd
    · rw [hf] at h3; simp at h3
    · left; simp [resumeReadingOp, h1, h2, hf, h3, h4, h5]
  · right; simp [resumeReadingOp, h1, h2, h3, h4, h5]

theorem closeAux_liveOrFinalized (e : Option OSErr) (s : FDState) (h : LiveOrFinalized s) :
    LiveOrFinalized (closeAux e s) := by
  rcases h with ⟨h1, h2, h3, h4, h5⟩ | ⟨h1, h2, h3, h4, h5⟩
  · rcases hf : s.fileno with _ | fd
    · rw [hf] at h3; simp at h3
    · left; simp [closeAux, pauseReadingOp, callSoonOp, h1, h2, hf, h3, h4, h5]
  · right; simp [closeAux, pauseReadingOp, callSoonOp, h1, h2, h3, h4, h5]

theorem fatalError_liveOrFinalized (exc : OSErr) (s : FDState) (h : LiveOrFinalized s) :
    LiveOrFinalized (fatalError exc s) := by
  unfold fatalError
  rcases h with ⟨h1, h2, h3, h4, h5⟩ | ⟨h1, h2, h3, h4, h5⟩
  · rw [h2]
    simp only [if_true]
    split
    · exact closeAux_liveOrFinalized _ _ (Or.inl ⟨h1, h2, h3, h4, h5⟩)
    · exact closeAux_liveOrFinalized _ _ (Or.inl (by simp [h1, h2, h3, h4, h5]))
  · rw [h2]; right; simp [h1, h2, h3, h4, h5]

theorem read_ready_liveOrFinalized (r : ReadResult) (s : FDState) (h : LiveOrFinalized s) :
    LiveOrFinalized (read_ready r s) := by
  rcases hf : s.fileno with _ | fd
  · rcases h with ⟨h1, h2, h3, h4, h5⟩ | ⟨h1, h2, h3, h4, h5⟩
    · rw [hf] at h3; simp at h3
    · right; simp [read_ready, hf, h1, h2, h3, h4, h5]
  · cases r with
    | interrupted => simpa [read_ready, hf] using h
    | osError exc =>
        have := fatalError_liveOrFinalized exc s h
        simpa [read_ready, hf] using this
    | ok bytes =>
        rcases h with ⟨h1, h2, h3, h4, h5⟩ | ⟨h1, h2, h3, h4, h5⟩
        · by_cases hb : bytes = []
          · left
            simp [read_ready, hf, hb, h1, h2, h3, h4, h5, pauseReadingOp, callSoonOp]
          · left
            simp [read_ready, hf, hb, h1, h2, h3, h4, h5]
        · rw [hf] at h3; simp at h3

theorem callConnectionLost_liveOrFinalized (e : Option OSErr) (pr : Bool) (s : FDState)
    (h : LiveOrFinalized s) : LiveOrFinalized (callConnectionLost e pr s) := by
  rcases h with ⟨h1, h2, h3, h4, h5⟩ | ⟨h1, h2, h3, h4, h5⟩
  · rcases hf : s.fileno with _ | fd
    · rw [hf] at h3; simp at h3
    · right; simp [callConnectionLost, h1, h2, hf, h3, h4, h5]
  · right; simp [callConnectionLost, h1, h2, h3, h4, h5]

theorem liveOrFinalized_of_eq (s t : FDState) (h : LiveOrFinalized s)
    (e1 : t.hasProtocol = s.hasProtocol) (e2 : t.hasLoop = s.hasLoop)
    (e3 : t.fileno = s.fileno) (e4 : t.connectionLostCalls = s.connectionLostCalls)
    (e5 : t.osCloseCalls = s.osCloseCalls) : LiveOrFinalized t := by
  rcases h with ⟨h1, h2, h3, h4, h5⟩ | ⟨h1, h2, h3, h4, h5⟩
  · left; exact ⟨e1.trans h1, e2.trans h2, by rw [e3]; exact h3, e4.trans h4, e5.trans h5⟩
  · right; exact ⟨e1.trans h1, e2.trans h2, e3.trans h3, by rw [e4]; exact h4, e5.trans h5⟩

theorem execTask_liveOrFinalized (pr : Bool) (s : FDState) (h : LiveOrFinalized s) :
    LiveOrFinalized (execTask pr s) := by
  rcases hq : s.queue with _ | ⟨t, rest⟩
  · simpa [execTask, hq] using h
  · have h' : LiveOrFinalized { s with queue := rest } :=
      liveOrFinalized_of_eq s _ h rfl rfl rfl rfl rfl
    cases t with
    | connectionMade =>
        simp only [execTask, hq]
        exact liveOrFinalized_of_eq _ _ h' rfl rfl rfl rfl rfl
    | resumeReading =>
        simp only [execTask, hq]
        exact resumeReadingOp_liveOrFinalized _ h'
    | notifyWaiter =>
        simp only [execTask, hq, notifyWaiterOp]
        split
        · exact h'
        · exact liveOrFinalized_of_eq _ _ h' rfl rfl rfl rfl rfl
    | eofReceived =>
        simp only [execTask, hq]
        exact liveOrFinalized_of_eq _ _ h' rfl rfl rfl rfl rfl
    | callConnectionLost e =>
        simp only [execTask, hq]
        exact callConnectionLost_liveOrFinalized e pr _ h'

theorem step_liveOrFinalized (a : Act) (s : FDState) (h : LiveOrFinalized s) :
    LiveOrFinalized (step a s) := by
  cases a with
  | close =>
      show LiveOrFinalized (close s)
      unfold close
      split
      · exact h
      · exact closeAux_liveOrFinalized _ _ h
  | pause => exact pauseReadingOp_liveOrFinalized s h
  | resume => exact resumeReadingOp_liveOrFinalized s h
  | cancelWaiter =>
      show LiveOrFinalized (if s.waiterResolved = true then s else _)
      split
      · exact h
      · exact liveOrFinalized_of_eq s _ h rfl rfl rfl rfl rfl
  | readReady r =>
      show LiveOrFinalized (if s.readerRegistered = true then read_ready r s else s)
      split
      · exact read_ready_liveOrFinalized r s h
      · exact h
  | runTask pr => exact execTask_liveOrFinalized pr s h

theorem run_liveOrFinalized (acts : List Act) (s : FDState) (h : LiveOrFinalized s) :
    LiveOrFinalized (run acts s) := by
  induction acts generalizing s with
  | nil => exact h
  | cons a rest ih => exact ih (step a s) (step_liveOrFinalized a s h)

theorem initState_liveOrFinalized (fd : Nat) : LiveOrFinalized (initState fd) := by
  left; simp [initState]

/-- C1: on every execution of the transport (any interleaving of public
calls, readiness callbacks and scheduler turns, including turns where the
protocol's `connection_lost` callback itself raises), the protocol's
`connection_lost` is invoked at most once and the descriptor is closed by
`os.close` at most once; and on every path that ends the transport (the
fileno attribute has been invalidated, which happens exactly in
`_call_connection_lost`, reached from explicit close, kernel EOF, or a
fatal read error), both have happened exactly once. -/
theorem transport_finalizes_exactly_once (fd : Nat) (acts : List Act) :
    (run acts (initState fd)).connectionLostCalls.length ≤ 1 ∧
    (run acts (initState fd)).osCloseCalls ≤ 1 ∧
    ((run acts (initState fd)).fileno = none →
      (run acts (initState fd)).connectionLostCalls.length = 1 ∧
      (run acts (initState fd)).osCloseCalls = 1) := by
  have h := run_liveOrFinalized acts (initState fd) (initState_liveOrFinalized fd)
  rcases h with ⟨_, _, h3, h4, h5⟩ | ⟨_, _, h3, h4, h5⟩
  · refine ⟨by simp [h4], by simp [h5], fun hn => ?_⟩
    rw [hn] at h3; simp at h3
  · exact ⟨le_of_eq h4, le_of_eq h5, fun _ => ⟨h4, h5⟩⟩

/-- Witness for C1: a concrete run (close, then four scheduler turns; the
`connection_lost` callback raises on its turn) that ends the transport and
shows one invocation and one descriptor close. -/
theorem transport_finalizes_exactly_once_witness :
    (run [Act.close, Act.runTask false, Act.runTask false, Act.runTask false,
        Act.runTask true] (initState 3)).fileno = none ∧
    (run [Act.close, Act.runTask false, Act.runTask false, Act.runTask false,
        Act.runTask true] (initState 3)).connectionLostCalls.length = 1 ∧
    (run [Act.close, Act.runTask false, Act.runTask false, Act.runTask false,
        Act.runTask true] (initState 3)).osCloseCalls = 1 := by
  refine ⟨by decide, ?_⟩
  exact (transport_finalizes_exactly_once 3
    [Act.close, Act.runTask false, Act.runTask false, Act.runTask false,
      Act.runTask true]).2.2 (by decide)

/-- C2: on a live transport (fileno and loop attributes still set), the
first `close()` sets `_closing`, unregisters the descriptor and clears
`_active` (pause), and only appends the finalization task to the loop's
FIFO without invoking `connection_lost` or `os.close` synchronously; a
`close()` while `_closing` is already set returns the state unchanged. -/
theorem close_idempotent (s : FDState) (fd : Nat)
    (h1 : s.fileno = some fd) (h2 : s.hasLoop = true) :
    (s.closing = false →
      (close s).closing = true ∧ (close s).active = false ∧
      (close s).readerRegistered = false ∧
      (close s).queue = s.queue ++ [FDTask.callConnectionLost none] ∧
      (close s).connectionLostCalls = s.connectionLostCalls ∧
      (close s).osCloseCalls = s.osCloseCalls) ∧
    (s.closing = true → close s = s) := by
  constructor
  · intro hc
    simp [close, closeAux, pauseReadingOp, callSoonOp, hc, h1, h2]
  · intro hc
    simp [close, hc]

/-- Witness for C2 at a concrete live transport. -/
theorem close_idempotent_witness :
    (close (initState 3)).closing = true ∧
    (close (initState 3)).queue =
      (initState 3).queue ++ [FDTask.callConnectionLost none] ∧
    close { initState 3 with closing := true } = { initState 3 with closing := true } := by
  have h := close_idempotent (initState 3) 3 rfl rfl
  have h' := close_idempotent { initState 3 with closing := true } 3 rfl rfl
  exact ⟨(h.1 rfl).1, (h.1 rfl).2.2.2.1, h'.2 rfl⟩

/-- C3: the constructor performs no synchronous notification: right after
`__init__` no `connection_made` has run, the descriptor is not registered,
reading is not active and the waiter is not resolved; the three
notifications sit in the loop's FIFO in order and running three later
scheduler turns delivers all of them. -/
theorem constructor_defers_notifications (fd : Nat) :
    (initState fd).connectionMadeCalls = 0 ∧
    (initState fd).readerRegistered = false ∧
    (initState fd).active = false ∧
    (initState fd).waiterResolved = false ∧
    (initState fd).queue =
      [FDTask.connectionMade, FDTask.resumeReading, FDTask.notifyWaiter] ∧
    (run [Act.runTask false, Act.runTask false, Act.runTask false]
        (initState fd)).connectionMadeCalls = 1 ∧
    (run [Act.runTask false, Act.runTask false, Act.runTask false]
        (initState fd)).active = true ∧
    (run [Act.runTask false, Act.runTask false, Act.runTask false]
        (initState fd)).readerRegistered = true ∧
    (run [Act.runTask false, Act.runTask false, Act.runTask false]
        (initState fd)).waiterResolved = true := by
  refine ⟨rfl, rfl, rfl, rfl, rfl, ?_, ?_, ?_, ?_⟩ <;> rfl

/-- C4: on a live transport, a readiness callback whose read raises
`InterruptedError` leaves the state untouched; a read raising `OSError`
with errno EIO schedules the finalization with that error (transport
closing, reading paused) without touching the loop's exception handler;
any other errno calls the loop's exception handler once and schedules the
same finalization with the error. -/
theorem read_error_handling (s : FDState) (fd e : Nat)
    (h1 : s.fileno = some fd) (h2 : s.hasLoop = true) :
    read_ready ReadResult.interrupted s = s ∧
    ((read_ready (ReadResult.osError ⟨errnoEio⟩) s).excHandlerCalls = s.excHandlerCalls ∧
      (read_ready (ReadResult.osError ⟨errnoEio⟩) s).closing = true ∧
      (read_ready (ReadResult.osError ⟨errnoEio⟩) s).readerRegistered = false ∧
      (read_ready (ReadResult.osError ⟨errnoEio⟩) s).queue =
        s.queue ++ [FDTask.callConnectionLost (some ⟨errnoEio⟩)]) ∧
    (e ≠ errnoEio →
      (read_ready (ReadResult.osError ⟨e⟩) s).excHandlerCalls = s.excHandlerCalls + 1 ∧
      (read_ready (ReadResult.osError ⟨e⟩) s).closing = true ∧
      (read_ready (ReadResult.osError ⟨e⟩) s).readerRegistered = false ∧
      (read_ready (ReadResult.osError ⟨e⟩) s).queue =
        s.queue ++ [FDTask.callConnectionLost (some ⟨e⟩)]) := by
  refine ⟨?_, ?_, fun he => ?_⟩
  · simp [read_ready, h1]
  · simp [read_ready, fatalError, closeAux, pauseReadingOp, callSoonOp, h1, h2]
  · simp [read_ready, fatalError, closeAux, pauseReadingOp, callSoonOp, h1, h2, he]

/-- Witness for C4 at a concrete live transport, with errno 13 (EACCES)
as the non-EIO error. -/
theorem read_error_handling_witness :
    read_ready ReadResult.interrupted (initState 3) = initState 3 ∧
    (read_ready (ReadResult.osError ⟨errnoEio⟩) (initState 3)).excHandlerCalls = 0 ∧
    (read_ready (ReadResult.osError ⟨13⟩) (initState 3)).excHandlerCalls = 1 := by
  have h := read_error_handling (initState 3) 3 13 rfl rfl
  exact ⟨h.1, h.2.1.1, (h.2.2 (by decide)).1⟩

/-- Invariant tying `_active` to the loop's reader registration. -/
def ActiveMatchesReader (s : FDState) : Prop := s.active = s.readerRegistered

theorem pauseReadingOp_amr (s : FDState) (h : ActiveMatchesReader s) :
    ActiveMatchesReader (pauseReadingOp s).1 := by
  unfold ActiveMatchesReader at *
  rcases hf : s.fileno with _ | fd <;> by_cases hl : s.hasLoop <;>
    simp [pauseReadingOp, hf, hl, h]

theorem resumeReadingOp_amr (s : FDState) (h : ActiveMatchesReader s) :
    ActiveMatchesReader (resumeReadingOp s).1 := by
  unfold ActiveMatchesReader at *
  rcases hf : s.fileno with _ | fd <;> by_cases hl : s.hasLoop <;>
    simp [resumeReadingOp, hf, hl, h]

theorem closeAux_amr (e : Option OSErr) (s : FDState) (h : ActiveMatchesReader s) :
    ActiveMatchesReader (closeAux e s) := by
  unfold ActiveMatchesReader at *
  rcases hf : s.fileno with _ | fd <;> by_cases hl : s.hasLoop <;>
    simp [closeAux, pauseReadingOp, callSoonOp, hf, hl, h]

theorem fatalError_amr (exc : OSErr) (s : FDState) (h : ActiveMatchesReader s) :
    ActiveMatchesReader (fatalError exc s) := by
  by_cases hl : s.hasLoop
  · by_cases he : exc.errno = errnoEio
    · simpa [fatalError, hl, he] using closeAux_amr _ s h
    · have := closeAux_amr (some exc)
        { s with excHandlerCalls := s.excHandlerCalls + 1 } (by exact h)
      simpa [fatalError, hl, he] using this
  · simpa [fatalError, hl] using h

theorem read_ready_amr (r : ReadResult) (s : FDState) (h : ActiveMatchesReader s) :
    ActiveMatchesReader (read_ready r s) := by
  rcases hf : s.fileno with _ | fd
  · simpa [read_ready, hf] using h
  · cases r with
    | interrupted => simpa [read_ready, hf] using h
    | osError exc => simpa [read_ready, hf] using fatalError_amr exc s h
    | ok bytes =>
        by_cases hb : bytes = []
        · by_cases hl : s.hasLoop
          · by_cases hp : s.hasProtocol <;>
              simp [ActiveMatchesReader, read_ready, hf, hb, hl, hp,
                pauseReadingOp, callSoonOp]
          · simpa [ActiveMatchesReader, read_ready, hf, hb, hl] using h
        · by_cases hp : s.hasProtocol <;>
            simpa [ActiveMatchesReader, read_ready, hf, hb, hp] using h

theorem step_amr (a : Act) (s : FDState) (h : ActiveMatchesReader s) :
    ActiveMatchesReader (step a s) := by
  cases a with
  | close =>
      show ActiveMatchesReader (close s)
      unfold close
      split
      · exact h
      · exact closeAux_amr _ _ h
  | pause => exact pauseReadingOp_amr s h
  | resume => exact resumeReadingOp_amr s h
  | cancelWaiter =>
      show ActiveMatchesReader (if s.waiterResolved = true then s else _)
      split
      · exact h
      · exact h
  | readReady r =>
      show ActiveMatchesReader (if s.readerRegistered = true then read_ready r s else s)
      split
      · exact read_ready_amr r s h
      · exact h
  | runTask pr =>
      show ActiveMatchesReader (execTask pr s)
      rcases hq : s.queue with _ | ⟨t, rest⟩
      · simpa [execTask, hq] using h
      · have h' : ActiveMatchesReader { s with queue := rest } := h
        cases t with
        | connectionMade => simpa [execTask, hq] using h'
        | resumeReading =>
            simp only [execTask, hq]
            exact resumeReadingOp_amr _ h'
        | notifyWaiter =>
            simp only [execTask, hq, notifyWaiterOp]
            split
            · exact h'
            · exact h'
        | eofReceived => simpa [execTask, hq] using h'
        | callConnectionLost e =>
            simp only [execTask, hq]
            unfold callConnectionLost ActiveMatchesReader
            rcases hp : s.hasProtocol <;> rcases hf : s.fileno with _ | fd <;>
              simp [hp, hf]
            all_goals exact h

theorem run_amr (acts : List Act) (s : FDState) (h : ActiveMatchesReader s) :
    ActiveMatchesReader (run acts s) := by
  induction acts generalizing s with
  | nil => exact h
  | cons a rest ih => exact ih (step a s) (step_amr a s h)

/-- C10: for every reachable state of the transport (constructor followed
by any interleaving of public calls, readiness callbacks and scheduler
turns), `_active` is true exactly when the descriptor is registered in the
loop's reader set; and on any live state, `pause_reading` forces both to
false and `resume_reading` forces both to true, whatever they were. -/
theorem active_tracks_reader_registration (fd : Nat) (acts : List Act)
    (s : FDState) (fd2 : Nat) (h1 : s.fileno = some fd2) (h2 : s.hasLoop = true) :
    ((run acts (initState fd)).active = (run acts (initState fd)).readerRegistered) ∧
    ((pause_reading s).active = false ∧ (pause_reading s).readerRegistered = false) ∧
    ((resume_reading s).active = true ∧ (resume_reading s).readerRegistered = true) := by
  refine ⟨run_amr acts (initState fd) rfl, ?_, ?_⟩
  · simp [pause_reading, pauseReadingOp, h1, h2]
  · simp [resume_reading, resumeReadingOp, h1, h2]

/-- Witness for C10 at a concrete run and a concrete live state whose
`_active` flag disagrees with its registration before the calls. -/
theorem active_tracks_reader_registration_witness :
    ((run [Act.close, Act.runTask false] (initState 3)).active =
      (run [Act.close, Act.runTask false] (initState 3)).readerRegistered) ∧
    ((pause_reading { initState 3 with active := true }).active = false) ∧
    ((resume_reading { initState 3 with readerRegistered := true }).active = true) := by
  have h1 := active_tracks_reader_registration 3 [Act.close, Act.runTask false]
    { initState 3 with active := true } 3 rfl rfl
  have h2 := active_tracks_reader_registration 3 [Act.close, Act.runTask false]
    { initState 3 with readerRegistered := true } 3 rfl rfl
  exact ⟨h1.1, h1.2.1.1, h2.2.2.1⟩

/-- Queue fragments that contain none of the three constructor-submitted
tasks: after `__init__`, only `eofReceived` and `callConnectionLost` are
ever enqueued. -/
def noCtorTasks (l : List FDTask) : Prop :=
  FDTask.connectionMade ∉ l ∧ FDTask.resumeReading ∉ l ∧ FDTask.notifyWaiter ∉ l

theorem noCtorTasks_append (a b : List FDTask) (ha : noCtorTasks a) (hb : noCtorTasks b) :
    noCtorTasks (a ++ b) := by
  obtain ⟨a1, a2, a3⟩ := ha
  obtain ⟨b1, b2, b3⟩ := hb
  refine ⟨?_, ?_, ?_⟩ <;> simp_all [List.mem_append]

/-- Staging invariant for the waiter: the `call_soon` FIFO still holds the
three constructor tasks in submission order (with only late-lifecycle
tasks behind them), each prefix already executed having left its trace,
and once the waiter is resolved, `connection_made` has run and a
`resume_reading` has completed. -/
def WaiterStaged (s : FDState) : Prop :=
  (∃ rest, noCtorTasks rest ∧
    s.queue = FDTask.connectionMade :: FDTask.resumeReading :: FDTask.notifyWaiter :: rest ∧
    s.waiterResolved = false ∧ s.hasLoop = true ∧ s.fileno.isSome = true)
  ∨ (∃ rest, noCtorTasks rest ∧
    s.queue = FDTask.resumeReading :: FDTask.notifyWaiter :: rest ∧
    s.waiterResolved = false ∧ s.hasLoop = true ∧ s.fileno.isSome = true ∧
    1 ≤ s.connectionMadeCalls)
  ∨ (∃ rest, noCtorTasks rest ∧
    s.queue = FDTask.notifyWaiter :: rest ∧
    s.waiterResolved = false ∧ 1 ≤ s.connectionMadeCalls ∧ s.everResumed = true)
  ∨ (noCtorTasks s.queue ∧
    (s.waiterResolved = true → 1 ≤ s.connectionMadeCalls ∧ s.everResumed = true))

theorem waiterStaged_extends (s t : FDState) (h : WaiterStaged s)
    (hq : ∃ ts, noCtorTasks ts ∧ t.queue = s.queue ++ ts)
    (hw : t.waiterResolved = s.waiterResolved)
    (hl : s.hasLoop = true → t.hasLoop = true)
    (hf : s.fileno.isSome = true → t.fileno.isSome = true)
    (hc : s.connectionMadeCalls ≤ t.connectionMadeCalls)
    (hr : s.everResumed = true → t.everResumed = true) : WaiterStaged t := by
  obtain ⟨ts, hts, hqe⟩ := hq
  rcases h with ⟨rest, hn, hq1, hw1, hl1, hf1⟩ | ⟨rest, hn, hq1, hw1, hl1, hf1, hc1⟩ |
    ⟨rest, hn, hq1, hw1, hc1, hr1⟩ | ⟨hn, himp⟩
  · exact Or.inl ⟨rest ++ ts, noCtorTasks_append rest ts hn hts,
      by rw [hqe, hq1]; simp, hw.trans hw1, hl hl1, hf hf1⟩
  · exact Or.inr (Or.inl ⟨rest ++ ts, noCtorTasks_append rest ts hn hts,
      by rw [hqe, hq1]; simp, hw.trans hw1, hl hl1, hf hf1, le_trans hc1 hc⟩)
  · exact Or.inr (Or.inr (Or.inl ⟨rest ++ ts, noCtorTasks_append rest ts hn hts,
      by rw [hqe, hq1]; simp, hw.trans hw1, le_trans hc1 hc, hr hr1⟩))
  · refine Or.inr (Or.inr (Or.inr ⟨by rw [hqe]; exact noCtorTasks_append _ _ hn hts, ?_⟩))
    intro hwt
    obtain ⟨c1, c2⟩ := himp (hw.symm.trans hwt)
    exact ⟨le_trans c1 hc, hr c2⟩

theorem pauseReadingOp_frame (s : FDState) :
    (pauseReadingOp s).1.queue = s.queue ∧
    (pauseReadingOp s).1.waiterResolved = s.waiterResolved ∧
    (pauseReadingOp s).1.hasLoop = s.hasLoop ∧
    (pauseReadingOp s).1.fileno = s.fileno ∧
    (pauseReadingOp s).1.connectionMadeCalls = s.connectionMadeCalls ∧
    (pauseReadingOp s).1.everResumed = s.everResumed := by
  unfold pauseReadingOp
  rcases hf : s.fileno with _ | fd <;> by_cases hl : s.hasLoop <;> simp [hf, hl]

theorem resumeReadingOp_frame (s : FDState) :
    (resumeReadingOp s).1.queue = s.queue ∧
    (resumeReadingOp s).1.waiterResolved = s.waiterResolved ∧
    (resumeReadingOp s).1.hasLoop = s.hasLoop ∧
    (resumeReadingOp s).1.fileno = s.fileno ∧
    (resumeReadingOp s).1.connectionMadeCalls = s.connectionMadeCalls ∧
    (s.everResumed = true → (resumeReadingOp s).1.everResumed = true) := by
  unfold resumeReadingOp
  rcases hf : s.fileno with _ | fd <;> by_cases hl : s.hasLoop <;> simp [hf, hl]

theorem closeAux_frame (e : Option OSErr) (s : FDState) :
    ((closeAux e s).queue = s.queue ∨
      (closeAux e s).queue = s.queue ++ [FDTask.callConnectionLost e]) ∧
    (closeAux e s).waiterResolved = s.waiterResolved ∧
    (closeAux e s).hasLoop = s.hasLoop ∧
    (closeAux e s).fileno = s.fileno ∧
    (closeAux e s).connectionMadeCalls = s.connectionMadeCalls ∧
    (closeAux e s).everResumed = s.everResumed := by
  unfold closeAux pauseReadingOp callSoonOp
  rcases hf : s.fileno with _ | fd <;> by_cases hl : s.hasLoop <;> simp [hf, hl]

theorem fatalError_frame (exc : OSErr) (s : FDState) :
    ((fatalError exc s).queue = s.queue ∨
      (fatalError exc s).queue = s.queue ++ [FDTask.callConnectionLost (some exc)]) ∧
    (fatalError exc s).waiterResolved = s.waiterResolved ∧
    (fatalError exc s).hasLoop = s.hasLoop ∧
    (fatalError exc s).fileno = s.fileno ∧
    (fatalError exc s).connectionMadeCalls = s.connectionMadeCalls ∧
    (fatalError exc s).everResumed = s.everResumed := by
  by_cases hl : s.hasLoop
  · by_cases he : exc.errno = errnoEio
    · simpa [fatalError, hl, he] using closeAux_frame (some exc) s
    · have h := closeAux_frame (some exc) { s with excHandlerCalls := s.excHandlerCalls + 1 }
      simpa [fatalError, hl, he] using h
  · simp [fatalError, hl]

theorem read_ready_frame (r : ReadResult) (s : FDState) :
    (∃ ts, noCtorTasks ts ∧ (read_ready r s).queue = s.queue ++ ts) ∧
    (read_ready r s).waiterResolved = s.waiterResolved ∧
    (read_ready r s).hasLoop = s.hasLoop ∧
    (read_ready r s).fileno = s.fileno ∧
    (read_ready r s).connectionMadeCalls = s.connectionMadeCalls ∧
    (read_ready r s).everResumed = s.everResumed := by
  rcases hf : s.fileno with _ | fd
  · exact ⟨⟨[], by simp [noCtorTasks], by simp [read_ready, hf]⟩,
      by simp [read_ready, hf], by simp [read_ready, hf], by simp [read_ready, hf],
      by simp [read_ready, hf], by simp [read_ready, hf]⟩
  · cases r with
    | interrupted =>
        exact ⟨⟨[], by simp [noCtorTasks], by simp [read_ready, hf]⟩,
          by simp [read_ready, hf], by simp [read_ready, hf], by simp [read_ready, hf],
          by simp [read_ready, hf], by simp [read_ready, hf]⟩
    | osError exc =>
        obtain ⟨hq, hw, hl, hfo, hc, hr⟩ := fatalError_frame exc s
        refine ⟨?_, by simpa [read_ready, hf] using hw, by simpa [read_ready, hf] using hl,
          by simpa [read_ready, hf] using hfo, by simpa [read_ready, hf] using hc,
          by simpa [read_ready, hf] using hr⟩
        rcases hq with hq | hq
        · exact ⟨[], by simp [noCtorTasks], by simp [read_ready, hf, hq]⟩
        · exact ⟨[FDTask.callConnectionLost (some exc)], by simp [noCtorTasks],
            by simpa [read_ready, hf] using hq⟩
    | ok bytes =>
        by_cases hb : bytes = []
        · by_cases hl : s.hasLoop
          · by_cases hp : s.hasProtocol
            · refine ⟨⟨[FDTask.eofReceived, FDTask.callConnectionLost none],
                by simp [noCtorTasks], ?_⟩, ?_, ?_, ?_, ?_, ?_⟩ <;>
                simp [read_ready, hf, hb, hl, hp, pauseReadingOp, callSoonOp]
            · refine ⟨⟨[], by simp [noCtorTasks], ?_⟩, ?_, ?_, ?_, ?_, ?_⟩ <;>
                simp [read_ready, hf, hb, hl, hp, pauseReadingOp, callSoonOp]
          · refine ⟨⟨[], by simp [noCtorTasks], ?_⟩, ?_, ?_, ?_, ?_, ?_⟩ <;>
              simp [read_ready, hf, hb, hl]
        · by_cases hp : s.hasProtocol <;>
            refine ⟨⟨[], by simp [noCtorTasks], ?_⟩, ?_, ?_, ?_, ?_, ?_⟩ <;>
            simp [read_ready, hf, hb, hp]

theorem callConnectionLost_frame (e : Option OSErr) (pr : Bool) (s : FDState) :
    (callConnectionLost e pr s).queue = s.queue ∧
    (callConnectionLost e pr s).waiterResolved = s.waiterResolved ∧
    (callConnectionLost e pr s).connectionMadeCalls = s.connectionMadeCalls ∧
    (callConnectionLost e pr s).everResumed = s.everResumed := by
  unfold callConnectionLost
  by_cases hp : s.hasProtocol <;> rcases hf : s.fileno with _ | fd <;> simp [hp, hf]

theorem execTask_waiterStaged (pr : Bool) (s : FDState) (h : WaiterStaged s) :
    WaiterStaged (execTask pr s) := by
  rcases h with ⟨rest, hn, hq1, hw1, hl1, hf1⟩ | ⟨rest, hn, hq1, hw1, hl1, hf1, hc1⟩ |
    ⟨rest, hn, hq1, hw1, hc1, hr1⟩ | ⟨hn, himp⟩
  · right; left
    refine ⟨rest, hn, ?_, ?_, ?_, ?_, ?_⟩ <;>
      simp [execTask, hq1, hw1, hl1, hf1]
  · right; right; left
    obtain ⟨fd, hfd⟩ := Option.isSome_iff_exists.mp hf1
    refine ⟨rest, hn, ?_, ?_, ?_, ?_⟩ <;>
      simp [execTask, hq1, resume_reading, resumeReadingOp, hl1, hfd, hw1, hc1]
  · right; right; right
    by_cases hcanc : s.waiterCancelled
    · refine ⟨?_, fun hwt => ?_⟩
      · simpa [execTask, hq1, notifyWaiterOp, hcanc] using hn
      · simp [execTask, hq1, notifyWaiterOp, hcanc] at hwt
        rw [hw1] at hwt; cases hwt
    · refine ⟨?_, fun _ => ?_⟩
      · simpa [execTask, hq1, notifyWaiterOp, hcanc] using hn
      · refine ⟨?_, ?_⟩ <;> simp [execTask, hq1, notifyWaiterOp, hcanc, hc1, hr1]
  · rcases hq : s.queue with _ | ⟨t, ts⟩
    · right; right; right
      constructor
      · simpa [execTask, hq] using (by simp [noCtorTasks] : noCtorTasks [])
      · intro hwt
        simp only [execTask, hq] at hwt ⊢
        exact himp hwt
    · have hn' : noCtorTasks (t :: ts) := hq ▸ hn
      have hts : noCtorTasks ts := by
        obtain ⟨a1, a2, a3⟩ := hn'
        exact ⟨fun m => a1 (List.mem_cons_of_mem _ m), fun m => a2 (List.mem_cons_of_mem _ m),
          fun m => a3 (List.mem_cons_of_mem _ m)⟩
      cases t with
      | connectionMade =>
          exact absurd (show FDTask.connectionMade ∈ FDTask.connectionMade :: ts by
            simp) hn'.1
      | resumeReading =>
          exact absurd (show FDTask.resumeReading ∈ FDTask.resumeReading :: ts by
            simp) hn'.2.1
      | notifyWaiter =>
          exact absurd (show FDTask.notifyWaiter ∈ FDTask.notifyWaiter :: ts by
            simp) hn'.2.2
      | eofReceived =>
          right; right; right
          refine ⟨by simpa [execTask, hq] using hts, fun hwt => ?_⟩
          simp only [execTask, hq] at hwt ⊢
          exact himp hwt
      | callConnectionLost e =>
          right; right; right
          obtain ⟨cq, cw, cc, cr⟩ := callConnectionLost_frame e pr { s with queue := ts }
          constructor
          · show noCtorTasks (execTask pr s).queue
            have : (execTask pr s).queue = ts := by
              simpa [execTask, hq] using cq
            rw [this]; exact hts
          · intro hwt
            have hwe : (execTask pr s).waiterResolved = s.waiterResolved := by
              simpa [execTask, hq] using cw
            have hce : (execTask pr s).connectionMadeCalls = s.connectionMadeCalls := by
              simpa [execTask, hq] using cc
            have hre : (execTask pr s).everResumed = s.everResumed := by
              simpa [execTask, hq] using cr
            obtain ⟨c1, c2⟩ := himp (hwe.symm.trans hwt)
            exact ⟨hce ▸ c1, hre ▸ c2⟩

theorem step_waiterStaged (a : Act) (s : FDState) (h : WaiterStaged s) :
    WaiterStaged (step a s) := by
  cases a with
  | close =>
      show WaiterStaged (close s)
      unfold close
      split
      · exact h
      · obtain ⟨hq, hw, hl, hf, hc, hr⟩ := closeAux_frame none s
        refine waiterStaged_extends s _ h ?_ hw (fun x => hl.trans x)
          (fun x => by rw [hf]; exact x) (le_of_eq hc.symm) (fun x => hr.trans x)
        rcases hq with hq | hq
        · exact ⟨[], by simp [noCtorTasks], by simpa using hq⟩
        · exact ⟨[FDTask.callConnectionLost none], by simp [noCtorTasks], hq⟩
  | pause =>
      show WaiterStaged (pauseReadingOp s).1
      obtain ⟨hq, hw, hl, hf, hc, hr⟩ := pauseReadingOp_frame s
      exact waiterStaged_extends s _ h ⟨[], by simp [noCtorTasks], by simpa using hq⟩
        hw (fun x => hl.trans x) (fun x => by rw [hf]; exact x)
        (le_of_eq hc.symm) (fun x => hr.trans x)
  | resume =>
      show WaiterStaged (resumeReadingOp s).1
      obtain ⟨hq, hw, hl, hf, hc, hr⟩ := resumeReadingOp_frame s
      exact waiterStaged_extends s _ h ⟨[], by simp [noCtorTasks], by simpa using hq⟩
        hw (fun x => hl.trans x) (fun x => by rw [hf]; exact x)
        (le_of_eq hc.symm) hr
  | cancelWaiter =>
      show WaiterStaged (if s.waiterResolved = true then s else _)
      split
      · exact h
      · exact waiterStaged_extends s _ h ⟨[], by simp [noCtorTasks], by simp⟩
          rfl (fun x => x) (fun x => x) le_rfl (fun x => x)
  | readReady r =>
      show WaiterStaged (if s.readerRegistered = true then read_ready r s else s)
      split
      · obtain ⟨hq, hw, hl, hf, hc, hr⟩ := read_ready_frame r s
        exact waiterStaged_extends s _ h hq hw (fun x => hl.trans x)
          (fun x => by rw [hf]; exact x) (le_of_eq hc.symm) (fun x => hr.trans x)
      · exact h
  | runTask pr => exact execTask_waiterStaged pr s h

theorem run_waiterStaged (acts : List Act) (s : FDState) (h : WaiterStaged s) :
    WaiterStaged (run acts s) := by
  induction acts generalizing s with
  | nil => exact h
  | cons a rest ih => exact ih (step a s) (step_waiterStaged a s h)

/-- C9: in every execution starting from the constructor, whenever the
waiter future has been resolved (which is what lets `stream_from_fd`
return from `await waiter`), the protocol's `connection_made` has already
run and a `resume_reading` has already completed: the waiter wake-up was
submitted to the FIFO strictly after the other two and the loop executes
submitted tasks in submission order. -/
theorem waiter_resolved_after_connected (fd : Nat) (acts : List Act)
    (h : (run acts (initState fd)).waiterResolved = true) :
    1 ≤ (run acts (initState fd)).connectionMadeCalls ∧
    (run acts (initState fd)).everResumed = true := by
  have hs := run_waiterStaged acts (initState fd)
    (Or.inl ⟨[], by simp [noCtorTasks], rfl, rfl, rfl, rfl⟩)
  rcases hs with ⟨_, _, _, hw, _⟩ | ⟨_, _, _, hw, _⟩ | ⟨_, _, _, hw, _⟩ | ⟨_, himp⟩
  · rw [h] at hw; cases hw
  · rw [h] at hw; cases hw
  · rw [h] at hw; cases hw
  · exact himp h

/-- Witness for C9: after three scheduler turns the waiter is resolved,
and indeed `connection_made` has run and reading has been resumed. -/
theorem waiter_resolved_after_connected_witness :
    (run [Act.runTask false, Act.runTask false, Act.runTask false]
        (initState 3)).waiterResolved = true ∧
    1 ≤ (run [Act.runTask false, Act.runTask false, Act.runTask false]
        (initState 3)).connectionMadeCalls ∧
    (run [Act.runTask false, Act.runTask false, Act.runTask false]
        (initState 3)).everResumed = true := by
  refine ⟨by decide, ?_⟩
  exact waiter_resolved_after_connected 3
    [Act.runTask false, Act.runTask false, Act.runTask false] (by decide)

/-! Part 2: the Watcher, WatchRegistry and RecordDecoder layer. The module
holding that code is not among the provided sources (only its tests in
`src/tests/test_usage.py` are), so every definition in this part is
modelled from the spec, as its doc comment states. -/

/-- Modelled from the spec (section 6): the create flag bit of the change
mask; the numeric values follow the Linux inotify constants the spec's
flag names refer to. -/
def flagCreate : Nat := 256

/-- Modelled from the spec (section 6): the moved-from flag bit. -/
def flagMovedFrom : Nat := 64

/-- Modelled from the spec (section 6): the moved-to flag bit. -/
def flagMovedTo : Nat := 128

/-- Modelled from the spec (section 6): the self-removal ("ignored")
flag bit. -/
def flagIgnored : Nat := 32768

/-- Modelled from the spec (sections 3 and 4.2): one raw notification
record: watch id, change mask, correlation cookie, and the name with its
NUL padding already stripped. -/
structure RawRecord where
  wd : Nat
  mask : Nat
  cookie : Nat
  nameBytes : List Nat
deriving DecidableEq, Repr

/-- Little-endian 4-byte encoding of a 32-bit header field. -/
def le32 (n : Nat) : List Nat :=
  [n % 256, n / 256 % 256, n / 65536 % 256, n / 16777216 % 256]

/-- Value of four little-endian bytes. -/
def dec32 (b0 b1 b2 b3 : Nat) : Nat :=
  b0 + 256 * b1 + 65536 * b2 + 16777216 * b3

/-- Strips the trailing NUL padding from a decoded name field. -/
def rstripZeros (l : List Nat) : List Nat :=
  (l.reverse.dropWhile (fun b => b == 0)).reverse

/-- Modelled from the spec (section 4.2): the wire form of one record:
four 32-bit header fields (watch id, mask, cookie, padded name length)
followed by the name and `pad` NUL bytes of padding. -/
def encodeRecord (r : RawRecord) (pad : Nat) : List Nat :=
  le32 r.wd ++ le32 r.mask ++ le32 r.cookie ++ le32 (r.nameBytes.length + pad) ++
    r.nameBytes ++ List.replicate pad 0

/-- Modelled from the spec (section 4.2): greedy decoding of a byte
buffer: emit every complete leading record in on-wire order, keep the
incomplete trailing bytes for the next chunk. -/
def parseAll (buf : List Nat) : List RawRecord × List Nat :=
  match buf with
  | b0 :: b1 :: b2 :: b3 :: m0 :: m1 :: m2 :: m3 ::
      c0 :: c1 :: c2 :: c3 :: l0 :: l1 :: l2 :: l3 :: tail =>
    if dec32 l0 l1 l2 l3 ≤ tail.length then
      (⟨dec32 b0 b1 b2 b3, dec32 m0 m1 m2 m3, dec32 c0 c1 c2 c3,
          rstripZeros (tail.take (dec32 l0 l1 l2 l3))⟩ ::
          (parseAll (tail.drop (dec32 l0 l1 l2 l3))).1,
        (parseAll (tail.drop (dec32 l0 l1 l2 l3))).2)
    else ([], buf)
  | _ => ([], buf)
termination_by buf.length
decreasing_by all_goals simp; omega

/-- One decoder step on an incoming chunk: append it to the buffered
leftover, re-parse, and accumulate the emitted records in order. -/
def feedChunk (acc : List RawRecord × List Nat) (c : List Nat) :
    List RawRecord × List Nat :=
  (acc.1 ++ (parseAll (acc.2 ++ c)).1, (parseAll (acc.2 ++ c)).2)

/-- Modelled from the spec (section 4.2): the decoder's buffering across
scheduler callbacks: chunks are consumed in arrival order, each prefixed
with the buffered leftover of the previous one. -/
def feedAll (chunks : List (List Nat)) : List RawRecord × List Nat :=
  chunks.foldl feedChunk ([], [])

/-- Modelled from the spec (section 3): one active watch. -/
structure ActiveWatch where
  wd : Nat
  watchAlias : String
  path : String
  mask : Nat
deriving DecidableEq, Repr

/-- Modelled from the spec (section 4.3): the registry of active watches,
keyed by alias, with at most one active watch per alias. -/
structure WatchRegistry where
  entries : List ActiveWatch
deriving DecidableEq, Repr

/-- Modelled from the spec (section 7): the error kinds of the watch
management layer. -/
inductive WatchError
  | duplicate
  | unknown
  | osError
  | closedState
deriving DecidableEq, Repr

/-- Whether an alias currently maps to an active watch. -/
def WatchRegistry.aliasActive (reg : WatchRegistry) (a : String) : Bool :=
  reg.entries.any (fun w => w.watchAlias == a)

/-- Modelled from the spec (section 4.3): `register` fails with a
Duplicate-kind error if the alias already maps to an active watch, and
otherwise adds the entry. -/
def WatchRegistry.registerWatch (reg : WatchRegistry) (a : String) (wd : Nat)
    (path : String) (mask : Nat) : Except WatchError WatchRegistry :=
  if reg.aliasActive a then Except.error WatchError.duplicate
  else Except.ok ⟨reg.entries ++ [⟨wd, a, path, mask⟩]⟩

/-- Modelled from the spec (section 4.3): `resolve` maps a watch id back
to its alias; unknown ids mean a stale record. -/
def WatchRegistry.resolve (reg : WatchRegistry) (wd : Nat) : Option String :=
  (reg.entries.find? (fun w => w.wd == wd)).map (fun w => w.watchAlias)

/-- Modelled from the spec (section 4.3): `remove` fails with an
Unknown-kind error if the alias has no active watch. -/
def WatchRegistry.removeAlias (reg : WatchRegistry) (a : String) :
    Except WatchError WatchRegistry :=
  if reg.aliasActive a then
    Except.ok ⟨reg.entries.filter (fun w => !(w.watchAlias == a))⟩
  else Except.error WatchError.unknown

/-- Modelled from the spec (section 4.3): self-removal pruning by watch
id, freeing the alias without a consumer call. -/
def WatchRegistry.removeByWatchId (reg : WatchRegistry) (wd : Nat) : WatchRegistry :=
  ⟨reg.entries.filter (fun w => !(w.wd == wd))⟩

/-- Modelled from the spec (section 3): a consumer-visible event. -/
structure Event where
  name : List Nat
  flags : Nat
  cookie : Nat
  watchAlias : String
deriving DecidableEq, Repr

/-- Modelled from the spec (section 4.4, record-to-event translation):
resolve the alias (dropping stale records silently), prune the registry
on a self-removal record after resolving so the emitted event still
carries the ended watch's alias, and append the event to the FIFO queue. -/
def processRecord (reg : WatchRegistry) (queue : List Event) (r : RawRecord) :
    WatchRegistry × List Event :=
  match reg.resolve r.wd with
  | none => (reg, queue)
  | some a =>
    let reg := if Nat.land r.mask flagIgnored ≠ 0 then reg.removeByWatchId r.wd else reg
    (reg, queue ++ [⟨r.nameBytes, r.mask, r.cookie, a⟩])

/-- Processes decoded records in on-wire order. -/
def processRecords (reg : WatchRegistry) (queue : List Event) :
    List RawRecord → WatchRegistry × List Event
  | [] => (reg, queue)
  | r :: rs =>
    let p := processRecord reg queue r
    processRecords p.1 p.2 rs

/-- Modelled from the spec (section 4.4): the Watcher state machine's
data: started/closed lifecycle flags, the pending requests submitted
before `setup()` in submission order, the registry, and the kernel's next
watch descriptor (the kernel collaborator hands out small integer watch
ids in sequence). -/
structure WatcherSt where
  started : Bool
  closedFlag : Bool
  requests : List (String × String × Nat)
  registry : WatchRegistry
  nextWd : Nat
deriving DecidableEq, Repr

/-- A freshly constructed Watcher, with the kernel's next watch id. -/
def initWatcher (wd0 : Nat) : WatcherSt :=
  { started := false, closedFlag := false, requests := [],
    registry := ⟨[]⟩, nextWd := wd0 }

/-- Modelled from the spec (section 6): the kernel collaborator's
`add_watch`: fails with an OSError-kind error when the path is missing or
inaccessible (per the `valid` oracle), otherwise hands out the next watch
id. -/
def addWatch (valid : String → Bool) (w : WatcherSt) (path : String) :
    Except WatchError (Nat × WatcherSt) :=
  if valid path then Except.ok (w.nextWd, { w with nextWd := w.nextWd + 1 })
  else Except.error WatchError.osError

/-- Modelled from the spec (section 4.4): realizing one watch request
against the kernel and the registry: duplicate aliases fail first, then
the kernel registration, then the registry entry is added. -/
def realize (valid : String → Bool) (w : WatcherSt) (a path : String) (mask : Nat) :
    Except WatchError WatcherSt :=
  if w.registry.aliasActive a then Except.error WatchError.duplicate
  else
    match addWatch valid w path with
    | Except.error e => Except.error e
    | Except.ok (wid, w2) =>
      match w2.registry.registerWatch a wid path mask with
      | Except.error e => Except.error e
      | Except.ok reg => Except.ok { w2 with registry := reg }

/-- Modelled from the spec (section 4.4): `watch(path, mask, alias)`: the
alias defaults to the path; fails when closed; before `setup()` the
request is only appended to the pending list (no kernel interaction, no
path check); after `setup()` it is realized immediately. -/
def watchOp (valid : String → Bool) (w : WatcherSt) (path : String) (mask : Nat)
    (aliasOpt : Option String) : Except WatchError WatcherSt :=
  let a := aliasOpt.getD path
  if w.closedFlag then Except.error WatchError.closedState
  else if w.started then realize valid w a path mask
  else Except.ok { w with requests := w.requests ++ [(a, path, mask)] }

/-- Realizes pending requests in submission order, aborting on the first
failure. -/
def realizeAll (valid : String → Bool) (w : WatcherSt) :
    List (String × String × Nat) → Except WatchError WatcherSt
  | [] => Except.ok w
  | (a, path, mask) :: rest =>
    match realize valid w a path mask with
    | Except.error e => Except.error e
    | Except.ok w2 => realizeAll valid w2 rest

/-- Modelled from the spec (section 4.4): `setup()` transitions to the
started state and realizes every pending request in submission order,
aborting on the first failure. -/
def setupOp (valid : String → Bool) (w : WatcherSt) : Except WatchError WatcherSt :=
  realizeAll valid { w with started := true, requests := [] } w.requests

/-- C5: with the Watcher started (not closed) and an alias already mapped
to an active watch, a second `watch` under that alias fails with the
Duplicate-kind error before any kernel or registry mutation; since the
failing call produces no new state, the caller's alias-to-watch mapping is
exactly what it was. -/
theorem duplicate_alias_rejected (valid : String → Bool) (w : WatcherSt)
    (p : String) (m : Nat) (a : String)
    (hs : w.started = true) (hc : w.closedFlag = false)
    (ha : w.registry.aliasActive a = true) :
    watchOp valid w p m (some a) = Except.error WatchError.duplicate := by
  simp [watchOp, hc, hs, realize, ha]

/-- Witness for C5, mirroring `test_duplicate_alias_raises`: the alias
"an alias" is already active. -/
theorem duplicate_alias_rejected_witness :
    watchOp (fun _ => true)
      { started := true, closedFlag := false, requests := [],
        registry := ⟨[⟨1, "an alias", "d", flagCreate⟩]⟩, nextWd := 2 }
      "d" flagCreate (some "an alias") = Except.error WatchError.duplicate :=
  duplicate_alias_rejected (fun _ => true)
    { started := true, closedFlag := false, requests := [],
      registry := ⟨[⟨1, "an alias", "d", flagCreate⟩]⟩, nextWd := 2 }
    "d" flagCreate "an alias" rfl rfl (by decide)

/-- Modelled from the spec (sections 4.2 and 8): the record pair the
kernel emits for one rename under a watch: moved-from with the source
name, then moved-to with the destination name, correlated by one shared
cookie. -/
def renameRecords (wd cookie : Nat) (src dst : List Nat) : List RawRecord :=
  [⟨wd, flagMovedFrom, cookie, src⟩, ⟨wd, flagMovedTo, cookie, dst⟩]

/-- C7: processing the two records of a rename under a watch whose id
resolves yields exactly two events: the first with the moved-from flag and
the source name, the second with the moved-to flag and the destination
name, and their cookie fields are equal. -/
theorem rename_two_events (reg : WatchRegistry) (a : String) (wd ck : Nat)
    (src dst : List Nat) (hres : reg.resolve wd = some a) :
    (processRecords reg [] (renameRecords wd ck src dst)).2 =
      [⟨src, flagMovedFrom, ck, a⟩, ⟨dst, flagMovedTo, ck, a⟩] ∧
    (processRecords reg [] (renameRecords wd ck src dst)).2.map Event.flags =
      [flagMovedFrom, flagMovedTo] ∧
    (processRecords reg [] (renameRecords wd ck src dst)).2.map Event.cookie =
      [ck, ck] := by
  have hf1 : Nat.land flagMovedFrom flagIgnored = 0 := by decide
  have hf2 : Nat.land flagMovedTo flagIgnored = 0 := by decide
  refine ⟨?_, ?_, ?_⟩ <;>
    simp [processRecords, processRecord, renameRecords, hres, hf1, hf2]

/-- Witness for C7: a one-entry registry and the rename of "a" (byte 97)
to "b" (byte 98) with cookie 42. -/
theorem rename_two_events_witness :
    (processRecords ⟨[⟨1, "watched", "d", 192⟩]⟩ []
        (renameRecords 1 42 [97] [98])).2 =
      [⟨[97], flagMovedFrom, 42, "watched"⟩, ⟨[98], flagMovedTo, 42, "watched"⟩] ∧
    (processRecords ⟨[⟨1, "watched", "d", 192⟩]⟩ []
        (renameRecords 1 42 [97] [98])).2.map Event.cookie = [42, 42] := by
  have h := rename_two_events ⟨[⟨1, "watched", "d", 192⟩]⟩ "watched" 1 42
    [97] [98] (by decide)
  exact ⟨h.1, h.2.2⟩

/-- C8: for a valid path, watching before `setup()` (held pending and
realized at setup) and watching after `setup()` (realized immediately)
lead to the same Watcher state, in particular the same registry, so the
same raw record is translated to the same observable event either way. -/
theorem watch_before_after_setup (valid : String → Bool) (p : String) (m : Nat)
    (aliasOpt : Option String) (wd0 : Nat) (hv : valid p = true) :
    ∃ wA wB : WatcherSt,
      (watchOp valid (initWatcher wd0) p m aliasOpt).bind (setupOp valid) =
        Except.ok wA ∧
      (setupOp valid (initWatcher wd0)).bind
        (fun w => watchOp valid w p m aliasOpt) = Except.ok wB ∧
      wA.registry = wB.registry ∧
      ∀ rec : RawRecord,
        (processRecord wA.registry [] rec).2 = (processRecord wB.registry [] rec).2 := by
  refine ⟨⟨true, false, [], ⟨[⟨wd0, aliasOpt.getD p, p, m⟩]⟩, wd0 + 1⟩,
    ⟨true, false, [], ⟨[⟨wd0, aliasOpt.getD p, p, m⟩]⟩, wd0 + 1⟩,
    ?_, ?_, rfl, fun _ => rfl⟩
  · simp [watchOp, initWatcher, setupOp, realizeAll, realize, addWatch, hv,
      WatchRegistry.aliasActive, WatchRegistry.registerWatch, Except.bind]
  · simp [watchOp, initWatcher, setupOp, realizeAll, realize, addWatch, hv,
      WatchRegistry.aliasActive, WatchRegistry.registerWatch, Except.bind]

/-- Witness for C8 with path "d", the create mask and a defaulted alias. -/
theorem watch_before_after_setup_witness :
    ∃ wA wB : WatcherSt,
      (watchOp (fun _ => true) (initWatcher 1) "d" flagCreate none).bind
        (setupOp (fun _ => true)) = Except.ok wA ∧
      (setupOp (fun _ => true) (initWatcher 1)).bind
        (fun w => watchOp (fun _ => true) w "d" flagCreate none) = Except.ok wB ∧
      wA.registry = wB.registry ∧
      ∀ rec : RawRecord,
        (processRecord wA.registry [] rec).2 = (processRecord wB.registry [] rec).2 :=
  watch_before_after_setup (fun _ => true) "d" flagCreate none 1 rfl

theorem dec32_le32 (n : Nat) (h : n < 4294967296) :
    dec32 (n % 256) (n / 256 % 256) (n / 65536 % 256) (n / 16777216 % 256) = n := by
  unfold dec32; omega

theorem dropWhile_zero_replicate_append (pad : Nat) (l : List Nat) :
    List.dropWhile (fun b => b == 0) (List.replicate pad (0 : Nat) ++ l) =
      List.dropWhile (fun b => b == 0) l := by
  induction pad with
  | zero => rfl
  | succ n ih => simp [List.replicate_succ, List.dropWhile_cons, ih]

theorem rstripZeros_pad (name : List Nat) (pad : Nat) (h : name.getLast? ≠ some 0) :
    rstripZeros (name ++ List.replicate pad 0) = name := by
  unfold rstripZeros
  rw [List.reverse_append, List.reverse_replicate, dropWhile_zero_replicate_append]
  rcases hn : name.reverse with _ | ⟨b, rest⟩
  · exact (List.reverse_eq_nil_iff.mp hn).symm
  · have hgl : name.getLast? = some b := by rw [← List.head?_reverse, hn]; rfl
    have hb : (b == 0) = false := by
      rcases eq_or_ne b 0 with hb0 | hb0
      · exact absurd (hb0 ▸ hgl) h
      · simp [hb0]
    rw [List.dropWhile_cons]
    simp only [hb, Bool.false_eq_true, if_false]
    rw [← hn, List.reverse_reverse]

/-- Well-formedness of a record and its padding for the wire format: the
header fields fit in 32 bits and the stored (already stripped) name has no
trailing NUL byte. -/
def wfRecord (r : RawRecord) (pad : Nat) : Prop :=
  r.wd < 4294967296 ∧ r.mask < 4294967296 ∧ r.cookie < 4294967296 ∧
  r.nameBytes.length + pad < 4294967296 ∧ r.nameBytes.getLast? ≠ some 0

instance (r : RawRecord) (pad : Nat) : Decidable (wfRecord r pad) := by
  unfold wfRecord; infer_instance

theorem parseAll_nil : parseAll [] = ([], []) := by
  rw [parseAll]
  simp

theorem parseAll_encode_cons (r : RawRecord) (pad : Nat) (rest : List Nat)
    (h : wfRecord r pad) :
    parseAll (encodeRecord r pad ++ rest) =
      (r :: (parseAll rest).1, (parseAll rest).2) := by
  obtain ⟨wd, mask, cookie, name⟩ := r
  obtain ⟨h1, h2, h3, h4, h5⟩ := h
  simp only [encodeRecord, le32, List.cons_append, List.nil_append, List.append_assoc]
  rw [parseAll]
  rw [dec32_le32 (name.length + pad) h4, dec32_le32 wd h1, dec32_le32 mask h2,
    dec32_le32 cookie h3]
  rw [if_pos (by simp)]
  rw [← List.append_assoc]
  rw [List.take_append_of_le_length (by simp), List.take_of_length_le (by simp)]
  rw [List.drop_append_of_le_length (by simp), List.drop_eq_nil_of_le (by simp)]
  rw [rstripZeros_pad name pad h5]
  simp

/-- The full wire stream of a list of records with their paddings. -/
def encodeAll : List (RawRecord × Nat) → List Nat
  | [] => []
  | (r, pad) :: rest => encodeRecord r pad ++ encodeAll rest

theorem parseAll_encodeAll (rps : List (RawRecord × Nat))
    (h : ∀ p ∈ rps, wfRecord p.1 p.2) :
    parseAll (encodeAll rps) = (rps.map Prod.fst, []) := by
  induction rps with
  | nil => simpa [encodeAll] using parseAll_nil
  | cons p rest ih =>
      obtain ⟨r, pad⟩ := p
      rw [encodeAll, parseAll_encode_cons r pad _ (h (r, pad) (by simp)),
        ih (fun q hq => h q (by simp [hq]))]
      simp

theorem parseAll_leftover_stuck (buf : List Nat) :
    parseAll (parseAll buf).2 = ([], (parseAll buf).2) := by
  induction buf using parseAll.induct with
  | case1 b0 b1 b2 b3 m0 m1 m2 m3 c0 c1 c2 c3 l0 l1 l2 l3 tail h ih =>
      rw [parseAll, if_pos h]
      exact ih
  | case2 b0 b1 b2 b3 m0 m1 m2 m3 c0 c1 c2 c3 l0 l1 l2 l3 tail h =>
      have hx : parseAll (b0 :: b1 :: b2 :: b3 :: m0 :: m1 :: m2 :: m3 ::
          c0 :: c1 :: c2 :: c3 :: l0 :: l1 :: l2 :: l3 :: tail) =
          ([], b0 :: b1 :: b2 :: b3 :: m0 :: m1 :: m2 :: m3 ::
            c0 :: c1 :: c2 :: c3 :: l0 :: l1 :: l2 :: l3 :: tail) := by
        rw [parseAll, if_neg h]
      rw [hx]
      simpa using hx
  | case3 buf h =>
      rcases buf with _ | ⟨x, xs⟩
      · rw [parseAll_nil]; exact parseAll_nil
      · have hx : parseAll (x :: xs) = ([], x :: xs) := by
          rw [parseAll]
          exact h
        rw [hx]
        simpa using hx

theorem parseAll_append_chunk (buf extra : List Nat) :
    parseAll (buf ++ extra) =
      ((parseAll buf).1 ++ (parseAll ((parseAll buf).2 ++ extra)).1,
        (parseAll ((parseAll buf).2 ++ extra)).2) := by
  induction buf using parseAll.induct with
  | case1 b0 b1 b2 b3 m0 m1 m2 m3 c0 c1 c2 c3 l0 l1 l2 l3 tail h ih =>
      simp only [List.cons_append]
      rw [parseAll, if_pos (le_trans h (by simp))]
      rw [List.take_append_of_le_length h, List.drop_append_of_le_length h]
      conv_rhs => rw [parseAll, if_pos h]
      rw [ih]
      simp
  | case2 b0 b1 b2 b3 m0 m1 m2 m3 c0 c1 c2 c3 l0 l1 l2 l3 tail h =>
      have hx : parseAll (b0 :: b1 :: b2 :: b3 :: m0 :: m1 :: m2 :: m3 ::
          c0 :: c1 :: c2 :: c3 :: l0 :: l1 :: l2 :: l3 :: tail) =
          ([], b0 :: b1 :: b2 :: b3 :: m0 :: m1 :: m2 :: m3 ::
            c0 :: c1 :: c2 :: c3 :: l0 :: l1 :: l2 :: l3 :: tail) := by
        rw [parseAll, if_neg h]
      rw [hx]
      simp
  | case3 buf h =>
      rcases buf with _ | ⟨x, xs⟩
      · rw [parseAll_nil]; simp
      · have hx : parseAll (x :: xs) = ([], x :: xs) := by
          rw [parseAll]
          exact h
        rw [hx]
        simp

theorem feedAll_foldl (chunks : List (List Nat)) (acc : List RawRecord)
    (buf : List Nat) (hstuck : parseAll buf = ([], buf)) :
    chunks.foldl feedChunk (acc, buf) =
      (acc ++ (parseAll (buf ++ chunks.flatten)).1,
        (parseAll (buf ++ chunks.flatten)).2) := by
  induction chunks generalizing acc buf with
  | nil => simp [hstuck]
  | cons c cs ih =>
      rw [List.foldl_cons]
      show (cs.foldl feedChunk
        (acc ++ (parseAll (buf ++ c)).1, (parseAll (buf ++ c)).2)) = _
      rw [ih (acc ++ (parseAll (buf ++ c)).1) (parseAll (buf ++ c)).2
        (parseAll_leftover_stuck (buf ++ c))]
      rw [List.flatten_cons, ← List.append_assoc,
        parseAll_append_chunk (buf ++ c) cs.flatten]
      simp

theorem feedAll_eq_parseAll_flatten (chunks : List (List Nat)) :
    feedAll chunks = parseAll chunks.flatten := by
  rw [feedAll, feedAll_foldl chunks [] [] parseAll_nil]
  simp

theorem processRecords_single (reg : WatchRegistry) (a : String) (wd : Nat)
    (queue : List Event) (rs : List RawRecord)
    (hres : reg.resolve wd = some a)
    (h : ∀ r ∈ rs, r.wd = wd ∧ Nat.land r.mask flagIgnored = 0) :
    processRecords reg queue rs =
      (reg, queue ++ rs.map (fun r => ⟨r.nameBytes, r.mask, r.cookie, a⟩)) := by
  induction rs generalizing queue with
  | nil => simp [processRecords]
  | cons r rest ih =>
      obtain ⟨hw, hm⟩ := h r (by simp)
      have hpr : processRecord reg queue r =
          (reg, queue ++ [⟨r.nameBytes, r.mask, r.cookie, a⟩]) := by
        simp [processRecord, hw, hres, hm]
      rw [processRecords, hpr]
      show processRecords reg (queue ++ [⟨r.nameBytes, r.mask, r.cookie, a⟩]) rest = _
      rw [ih _ (fun q hq => h q (by simp [hq]))]
      simp

/-- C6: for every list of well-formed raw records targeting a watch whose
id resolves to alias `a` and carrying no self-removal flag, and for every
way of slicing their concatenated wire encoding into chunks, feeding the
chunks through the buffering decoder emits exactly those records, in
on-wire order with nothing dropped or coalesced and an empty leftover,
and processing them appends exactly the corresponding events to the queue
in the same order. -/
theorem events_delivered_in_order (reg : WatchRegistry) (a : String) (wd : Nat)
    (rps : List (RawRecord × Nat)) (chunks : List (List Nat))
    (hres : reg.resolve wd = some a)
    (hwf : ∀ p ∈ rps, wfRecord p.1 p.2)
    (hmatch : ∀ p ∈ rps, p.1.wd = wd ∧ Nat.land p.1.mask flagIgnored = 0)
    (hchunks : chunks.flatten = encodeAll rps) :
    (feedAll chunks).1 = rps.map Prod.fst ∧
    (feedAll chunks).2 = [] ∧
    (processRecords reg [] (feedAll chunks).1).2 =
      rps.map (fun p => ⟨p.1.nameBytes, p.1.mask, p.1.cookie, a⟩) := by
  have h1 : feedAll chunks = (rps.map Prod.fst, []) := by
    rw [feedAll_eq_parseAll_flatten, hchunks]
    exact parseAll_encodeAll rps hwf
  have h2 : ∀ r ∈ rps.map Prod.fst, r.wd = wd ∧ Nat.land r.mask flagIgnored = 0 := by
    intro r hr
    obtain ⟨p, hp, hpr⟩ := List.mem_map.mp hr
    exact hpr ▸ hmatch p hp
  refine ⟨by rw [h1], by rw [h1], ?_⟩
  rw [h1]
  rw [processRecords_single reg a wd [] (rps.map Prod.fst) hres h2]
  simp [List.map_map]

/-- Concrete records for the C6 witness: two create records (mask 256)
for names "a" (byte 97) and "b" (byte 98), each padded with 3 NULs. -/
def sampleRecords : List (RawRecord × Nat) :=
  [(⟨1, 256, 0, [97]⟩, 3), (⟨1, 256, 0, [98]⟩, 3)]

/-- Concrete chunking for the C6 witness: the 40-byte wire stream split
mid-header after 13 bytes, so the decoder has to buffer a partial record. -/
def sampleChunks : List (List Nat) :=
  [(encodeAll sampleRecords).take 13, (encodeAll sampleRecords).drop 13]

/-- Witness for C6: decoding the split stream emits both records in
creation order and processing yields the two events in the same order. -/
theorem events_delivered_in_order_witness :
    (feedAll sampleChunks).1 = [⟨1, 256, 0, [97]⟩, ⟨1, 256, 0, [98]⟩] ∧
    (feedAll sampleChunks).2 = [] ∧
    (processRecords ⟨[⟨1, "w", "d", 256⟩]⟩ [] (feedAll sampleChunks).1).2 =
      [⟨[97], 256, 0, "w"⟩, ⟨[98], 256, 0, "w"⟩] := by
  have h := events_delivered_in_order ⟨[⟨1, "w", "d", 256⟩]⟩ "w" 1
    sampleRecords sampleChunks (by decide) (by decide) (by decide) (by decide)
  exact ⟨h.1, h.2.1, h.2.2⟩

end Aionotify
